import Mathlib

/-!
Verification of the order-fulfillment core of the tg-shop-ai repository.

The relational store (four tables: users, products, orders, order_items) is
embedded as a record of lists of rows together with the next autoincrement
ids.  Each repository operation of the source is translated into a pure
function over this record; a session's staged-but-uncommitted writes are kept
out of the returned store until the commit point, which models SQLAlchemy's
transactional sessions (`session.close()` without commit discards pending
writes).  Machine integers of the source (Python ints) are unbounded, so they
are embedded as `Int`/`Nat` directly.
-/

namespace Shop

/-- Row of the `users` table (src/app/db/models.py, class User).  `created_at`
is not modelled: no operation in scope reads it. -/
structure User where
  id : Nat
  tg_id : Int
  username : Option String
deriving Repr, DecidableEq

/-- Row of the `products` table (src/app/db/models.py, class Product). -/
structure Product where
  id : Nat
  sku : String
  name : String
  description : Option String
  price_cents : Int
  is_active : Bool
deriving Repr, DecidableEq

/-- Row of the `orders` table (src/app/db/models.py, class Order). -/
structure Order where
  id : Nat
  user_id : Nat
  status : String
  total_cents : Int
deriving Repr, DecidableEq

/-- Row of the `order_items` table (src/app/db/models.py, class OrderItem).
`price_cents` is the price snapshot taken at purchase time. -/
structure OrderItem where
  id : Nat
  order_id : Nat
  product_id : Nat
  qty : Int
  price_cents : Int
deriving Repr, DecidableEq

/-- The visible (committed) state of the relational store, with the
autoincrement counters of the four primary keys. -/
structure DB where
  users : List User
  products : List Product
  orders : List Order
  order_items : List OrderItem
  next_user_id : Nat
  next_product_id : Nat
  next_order_id : Nat
  next_item_id : Nat
deriving Repr, DecidableEq

/-- Errors raised by the repository layer.  `userNotFound` stands for the
ValueError "User not found in DB. Use /start first." and `productNotFound`
for "Product not found. Check SKU or use /catalog." of
src/app/db/order_repo.py; `storeFault` stands for an error raised by the
store itself inside a transaction (flush/commit failure). -/
inductive DbError where
  | userNotFound
  | productNotFound
  | storeFault
deriving Repr, DecidableEq

/-- Python truthiness of an optional string: `None` and `""` are falsy. -/
def strTruthy : Option String → Bool
  | none => false
  | some s => !(s == "")

/-- src/app/db/user_repo.py, `upsert_user`: look the user up by tg_id; insert
a fresh row when absent; otherwise update the username in place when the
given username is truthy and differs; return the current row either way.
`one_or_none` is modelled by `find?`, which agrees with it under the unique
constraint on tg_id. -/
def upsert_user (db : DB) (tg_id : Int) (username : Option String) : DB × User :=
  match db.users.find? (fun u => u.tg_id == tg_id) with
  | none =>
    let user : User := { id := db.next_user_id, tg_id := tg_id, username := username }
    ({ db with users := db.users ++ [user], next_user_id := db.next_user_id + 1 }, user)
  | some user =>
    if strTruthy username ∧ user.username ≠ username then
      let user2 : User := { user with username := username }
      ({ db with users := db.users.map (fun u => if u.id == user.id then user2 else u) }, user2)
    else
      (db, user)

/-- The SQL aggregate `SUM(qty * price_cents)` over the order_items rows of
one order, with `int(total or 0)` mapping an empty aggregate to 0
(src/app/db/order_repo.py, lines 52-57). -/
def aggTotal (items : List OrderItem) (oid : Nat) : Int :=
  ((items.filter (fun it => it.order_id == oid)).map (fun it => it.qty * it.price_cents)).sum

/-- src/app/db/order_repo.py, `create_order_for_user`: coerce qty below 1 to
1; resolve the user by tg_id and the product by sku among active products,
failing when either is absent; insert the order with total 0, insert the one
line with the price snapshot, recompute the total as the SQL aggregate over
the persisted (flushed) lines of the order, write it back and commit.  On
the error paths nothing was committed, so the store is unchanged (the caller
keeps `db`). -/
def create_order_for_user (db : DB) (tg_id : Int) (sku : String) (qty : Int) :
    Except DbError (DB × Order) :=
  let qty := if qty < 1 then 1 else qty
  match db.users.find? (fun u => u.tg_id == tg_id) with
  | none => .error .userNotFound
  | some user =>
    match db.products.find? (fun p => p.sku == sku && p.is_active) with
    | none => .error .productNotFound
    | some product =>
      let oid := db.next_order_id
      let order : Order := { id := oid, user_id := user.id, status := "new", total_cents := 0 }
      let item : OrderItem :=
        { id := db.next_item_id, order_id := oid, product_id := product.id,
          qty := qty, price_cents := product.price_cents }
      let items2 := db.order_items ++ [item]
      let order2 : Order := { order with total_cents := aggTotal items2 oid }
      let db2 : DB :=
        { db with
          orders := db.orders ++ [order2],
          order_items := items2,
          next_order_id := oid + 1,
          next_item_id := db.next_item_id + 1 }
      .ok (db2, order2)

/-- A point of the transaction of `create_order_for_user` at which the store
may raise: the flush of the order row, the flush of the line row, the
aggregate query, or the final commit. -/
inductive FaultPoint where
  | noFault
  | atAddOrder
  | atAddItem
  | atAggregate
  | atCommit
deriving Repr, DecidableEq

/-- `create_order_for_user` with a store fault injected at the given point of
the transaction.  The first component of the result is the store visible
after the call: staged writes become visible only at the commit point, and
every error path leaves the committed store untouched (`session.close()` in
the `finally` block discards the open transaction before the error
propagates). -/
def create_order_with_faults (fp : FaultPoint) (db : DB) (tg_id : Int) (sku : String)
    (qty : Int) : DB × Except DbError Order :=
  let qty := if qty < 1 then 1 else qty
  match db.users.find? (fun u => u.tg_id == tg_id) with
  | none => (db, .error .userNotFound)
  | some user =>
    match db.products.find? (fun p => p.sku == sku && p.is_active) with
    | none => (db, .error .productNotFound)
    | some product =>
      if fp = .atAddOrder then (db, .error .storeFault) else
      let oid := db.next_order_id
      let order : Order := { id := oid, user_id := user.id, status := "new", total_cents := 0 }
      if fp = .atAddItem then (db, .error .storeFault) else
      let item : OrderItem :=
        { id := db.next_item_id, order_id := oid, product_id := product.id,
          qty := qty, price_cents := product.price_cents }
      let items2 := db.order_items ++ [item]
      if fp = .atAggregate then (db, .error .storeFault) else
      let order2 : Order := { order with total_cents := aggTotal items2 oid }
      if fp = .atCommit then (db, .error .storeFault) else
      let db2 : DB :=
        { db with
          orders := db.orders ++ [order2],
          order_items := items2,
          next_order_id := oid + 1,
          next_item_id := db.next_item_id + 1 }
      (db2, .ok order2)

/-- Ordering used by `ORDER BY orders.id DESC`. -/
def orderDesc (a b : Order) : Prop := b.id ≤ a.id

instance : DecidableRel orderDesc := fun a b => inferInstanceAs (Decidable (b.id ≤ a.id))

instance : IsTotal Order orderDesc := ⟨fun a b => le_total b.id a.id⟩

instance : IsTrans Order orderDesc := ⟨fun _ _ _ h1 h2 => le_trans h2 h1⟩

/-- Ordering used by `ORDER BY products.id`. -/
def productAsc (a b : Product) : Prop := a.id ≤ b.id

instance : DecidableRel productAsc := fun a b => inferInstanceAs (Decidable (a.id ≤ b.id))

instance : IsTotal Product productAsc := ⟨fun a b => le_total a.id b.id⟩

instance : IsTrans Product productAsc := ⟨fun _ _ _ h1 h2 => le_trans h1 h2⟩

/-- src/app/db/order_query.py, `list_orders_by_tg_id`: resolve the user by
tg_id, returning the empty list when absent; otherwise the user's orders
ordered by id descending, capped at `limit`.  The SQL `ORDER BY ... LIMIT`
is modelled by sorting then taking. -/
def list_orders_by_tg_id (db : DB) (tg_id : Int) (limit : Nat) : List Order :=
  match db.users.find? (fun u => u.tg_id == tg_id) with
  | none => []
  | some user =>
    (List.insertionSort orderDesc (db.orders.filter (fun o => o.user_id == user.id))).take limit

/-- src/app/db/product_repo.py, `list_active_products`: the active products
ordered by id ascending, capped at `limit`. -/
def list_active_products (db : DB) (limit : Nat) : List Product :=
  (List.insertionSort productAsc (db.products.filter (fun p => p.is_active))).take limit

/-- Python `str.replace(",", ".")` for the two one-character arguments used
in src/app/web/app.py. -/
def replaceCommaDot (s : String) : String :=
  ⟨s.data.map (fun c => if c = ',' then '.' else c)⟩

/-- Python `str.strip()`: drop leading and trailing whitespace. -/
def pyStrip (s : String) : String :=
  ⟨((s.data.dropWhile Char.isWhitespace).reverse.dropWhile Char.isWhitespace).reverse⟩

/-- Value of a digit string, most significant first. -/
def digitsVal (ds : List Char) : Nat :=
  ds.foldl (fun acc c => acc * 10 + (c.toNat - 48)) 0

/-- Split a character list at its only dot; `none` when there are two or
more dots. -/
def splitDot : List Char → Option (List Char × List Char)
  | [] => some ([], [])
  | c :: r =>
    if c = '.' then
      if r.contains '.' then none else some ([], r)
    else
      (splitDot r).map (fun p => (c :: p.1, p.2))

/-- Python `decimal.Decimal(s)` on the plain-decimal fragment of its input
grammar used at the admin boundary: optional sign, integer digits, optional
dot and fraction digits (exponents, NaN and infinities are outside the
modelled fragment).  Returns the numerator and the decimal scale, so the
parsed value is `num / 10 ^ scale`; `none` on a malformed string. -/
def parseDecimal (s : String) : Option (Int × Nat) :=
  let signBody : Int × List Char :=
    match s.data with
    | '-' :: r => (-1, r)
    | '+' :: r => (1, r)
    | r => (1, r)
  match splitDot signBody.2 with
  | none => none
  | some (ip, fracp) =>
    if (ip.isEmpty && fracp.isEmpty) || !(ip.all Char.isDigit) || !(fracp.all Char.isDigit) then
      none
    else
      some (signBody.1 * ((digitsVal ip : Int) * 10 ^ fracp.length + (digitsVal fracp : Int)),
        fracp.length)

/-- Round the rational `n / d` (with `d > 0`) to the nearest integer, ties to
the even integer: the rounding performed by `Decimal.to_integral_value()`
under the decimal module's default context (ROUND_HALF_EVEN). -/
def roundHalfEven (n d : Int) : Int :=
  let q := n / d
  let r := n % d
  if 2 * r < d then q
  else if d < 2 * r then q + 1
  else if q % 2 = 0 then q else q + 1

/-- src/app/web/app.py, lines 44-46: `Decimal(price_str.replace(",", "."))`
then `int((price * 100).to_integral_value())`.  `none` when `Decimal`
raises. -/
def priceToCents (price_str : String) : Option Int :=
  match parseDecimal (replaceCommaDot price_str) with
  | none => none
  | some nd => some (roundHalfEven (nd.1 * 100) ((10 : Int) ^ nd.2))

/-- The whole money-parsing step of the admin boundary
(src/app/web/app.py, lines 44-52): parse and round the price string, then
reject a negative result. -/
def parse_price_minor (s : String) : Option Int :=
  match priceToCents s with
  | none => none
  | some c => if c < 0 then none else some c

/-- src/app/web/app.py, `admin_products` POST branch: strip the form fields,
reject when sku, name or price is empty, reject a duplicate sku, parse the
price (rejecting unparsable and negative values), then insert the product.
Each error value is the flash message family shown to the admin; every error
leaves the store unchanged. -/
def admin_products_post (db : DB) (sku name description price_str : String)
    (is_active : Bool) : Except String DB :=
  let sku := pyStrip sku
  let name := pyStrip name
  let description := pyStrip description
  let price_str := pyStrip price_str
  if sku = "" || name = "" || price_str = "" then .error "missing field"
  else if (db.products.find? (fun p => p.sku == sku)).isSome then .error "duplicate sku"
  else
    match priceToCents price_str with
    | none => .error "invalid price"
    | some cents =>
      if cents < 0 then .error "negative price"
      else
        let product : Product :=
          { id := db.next_product_id, sku := sku, name := name,
            description := if description = "" then none else some description,
            price_cents := cents, is_active := is_active }
        let db2 : DB :=
          { db with
            products := db.products ++ [product],
            next_product_id := db.next_product_id + 1 }
        .ok db2

/-- Modelled from the spec: a later edit of a catalog product's price.  The
source under src/ has no price-edit endpoint (the admin page only creates
products), but the spec's data model speaks of the referenced Product's
price later changing; this is the generic such change, touching only the
products table. -/
def set_product_price (db : DB) (pid : Nat) (new_price : Int) : DB :=
  { db with
    products := db.products.map
      (fun p => if p.id == pid then { p with price_cents := new_price } else p) }

/-- The operations in scope that touch the store. -/
inductive Op where
  | upsert (tg_id : Int) (username : Option String)
  | createOrder (tg_id : Int) (sku : String) (qty : Int)
  | listActive (limit : Nat)
  | listOrders (tg_id : Int) (limit : Nat)
  | adminCreateProduct (sku name description price_str : String) (is_active : Bool)
deriving Repr, DecidableEq

/-- The committed store after one operation: reads leave it unchanged, and a
failed write leaves it unchanged (rollback). -/
def step (db : DB) : Op → DB
  | .upsert tg un => (upsert_user db tg un).1
  | .createOrder tg sku qty =>
    match create_order_for_user db tg sku qty with
    | .ok r => r.1
    | .error _ => db
  | .listActive _ => db
  | .listOrders _ _ => db
  | .adminCreateProduct sku name description price_str is_active =>
    match admin_products_post db sku name description price_str is_active with
    | .ok db2 => db2
    | .error _ => db

/-- The total stored on every persisted order equals the aggregate sum of
qty times price over its persisted lines. -/
def totalsOk (db : DB) : Prop :=
  ∀ o ∈ db.orders, o.total_cents = aggTotal db.order_items o.id

/-- Freshness of the order autoincrement counter: every persisted order id
and every persisted line's order id is below the next order id. -/
def WF (db : DB) : Prop :=
  (∀ o ∈ db.orders, o.id < db.next_order_id) ∧
  (∀ it ∈ db.order_items, it.order_id < db.next_order_id)

instance (db : DB) : Decidable (totalsOk db) :=
  inferInstanceAs (Decidable (∀ o ∈ db.orders, o.total_cents = aggTotal db.order_items o.id))

instance (db : DB) : Decidable (WF db) :=
  inferInstanceAs (Decidable ((∀ o ∈ db.orders, o.id < db.next_order_id) ∧
    (∀ it ∈ db.order_items, it.order_id < db.next_order_id)))

/-- An empty store, as produced by `init_db`. -/
def emptyDB : DB :=
  { users := [], products := [], orders := [], order_items := [],
    next_user_id := 1, next_product_id := 1, next_order_id := 1, next_item_id := 1 }

/-- A sample store: one registered user (external id 42) and two active
products. -/
def dbShop : DB :=
  { users := [{ id := 1, tg_id := 42, username := some "alice" }],
    products := [
      { id := 1, sku := "SKU-001", name := "Phone", description := none,
        price_cents := 49900, is_active := true },
      { id := 2, sku := "SKU-002", name := "Case", description := none,
        price_cents := 1500, is_active := true }],
    orders := [], order_items := [],
    next_user_id := 2, next_product_id := 3, next_order_id := 1, next_item_id := 1 }


/-! ### Helper lemmas -/

/-- The qty coercion of `create_order_for_user` is the max with 1. -/
theorem normQty_eq_max (qty : Int) : (if qty < 1 then 1 else qty) = max 1 qty := by
  by_cases h : qty < 1
  · simp only [h, if_true]
    omega
  · simp only [h, if_false]
    omega

/-- Appending a line of a different order leaves an order's aggregate sum
unchanged. -/
theorem aggTotal_append_ne (items : List OrderItem) (it : OrderItem) (oid : Nat)
    (h : it.order_id ≠ oid) : aggTotal (items ++ [it]) oid = aggTotal items oid := by
  unfold aggTotal
  rw [List.filter_append]
  have hf : List.filter (fun x => x.order_id == oid) [it] = [] := by
    simp [List.filter_cons, h]
  rw [hf, List.append_nil]

/-- When no existing line belongs to the order, the lines of the order after
appending its one line are exactly that line. -/
theorem filter_append_fresh (items : List OrderItem) (it : OrderItem) (oid : Nat)
    (hfresh : ∀ x ∈ items, x.order_id ≠ oid) (hit : it.order_id = oid) :
    (items ++ [it]).filter (fun x => x.order_id == oid) = [it] := by
  rw [List.filter_append]
  have h1 : items.filter (fun x => x.order_id == oid) = [] := by
    rw [List.filter_eq_nil_iff]
    intro x hx
    simpa using hfresh x hx
  have h2 : List.filter (fun x => x.order_id == oid) [it] = [it] := by
    simp [List.filter_cons, hit]
  rw [h1, h2]
  rfl

/-- Inversion of a successful `create_order_for_user`: the exact shape of the
committed store and of the returned order. -/
theorem create_ok_inv (db : DB) (tg : Int) (sku : String) (qty : Int) (db2 : DB) (o2 : Order)
    (h : create_order_for_user db tg sku qty = .ok (db2, o2)) :
    ∃ u p,
      db.users.find? (fun x => x.tg_id == tg) = some u ∧
      db.products.find? (fun x => x.sku == sku && x.is_active) = some p ∧
      db2.users = db.users ∧
      db2.products = db.products ∧
      db2.orders = db.orders ++ [o2] ∧
      db2.order_items = db.order_items ++
        [{ id := db.next_item_id, order_id := db.next_order_id, product_id := p.id,
           qty := if qty < 1 then 1 else qty, price_cents := p.price_cents }] ∧
      db2.next_order_id = db.next_order_id + 1 ∧
      o2.id = db.next_order_id ∧
      o2.user_id = u.id ∧
      o2.status = "new" ∧
      o2.total_cents = aggTotal db2.order_items o2.id := by
  unfold create_order_for_user at h
  cases hu : db.users.find? (fun x => x.tg_id == tg) with
  | none =>
    rw [hu] at h
    cases h
  | some u =>
    rw [hu] at h
    cases hp : db.products.find? (fun x => x.sku == sku && x.is_active) with
    | none =>
      rw [hp] at h
      cases h
    | some p =>
      rw [hp] at h
      simp only [Except.ok.injEq, Prod.mk.injEq] at h
      obtain ⟨hdb, ho⟩ := h
      subst hdb
      subst ho
      exact ⟨u, p, rfl, rfl, rfl, rfl, rfl, rfl, rfl, rfl, rfl, rfl, rfl⟩

/-- A failed `create_order_for_user` leaves the committed store unchanged. -/
theorem create_error_step (db : DB) (tg : Int) (sku : String) (qty : Int) (e : DbError)
    (h : create_order_for_user db tg sku qty = .error e) :
    step db (.createOrder tg sku qty) = db := by
  simp only [step, h]

/-- `upsert_user` touches only the users table and its counter. -/
theorem upsert_frame (db : DB) (tg : Int) (un : Option String) :
    (upsert_user db tg un).1.orders = db.orders ∧
    (upsert_user db tg un).1.order_items = db.order_items ∧
    (upsert_user db tg un).1.next_order_id = db.next_order_id ∧
    (upsert_user db tg un).1.products = db.products := by
  unfold upsert_user
  cases db.users.find? (fun u => u.tg_id == tg) with
  | none => exact ⟨rfl, rfl, rfl, rfl⟩
  | some u =>
    dsimp only
    split <;> exact ⟨rfl, rfl, rfl, rfl⟩

/-- Inversion of a successful `admin_products_post`: only the products table
grows. -/
theorem admin_ok_shape (db : DB) (sku name description price_str : String) (is_active : Bool)
    (db2 : DB) (h : admin_products_post db sku name description price_str is_active = .ok db2) :
    db2.users = db.users ∧ db2.orders = db.orders ∧ db2.order_items = db.order_items ∧
    db2.next_order_id = db.next_order_id ∧
    ∃ pr, db2.products = db.products ++ [pr] := by
  simp only [admin_products_post] at h
  split at h
  · cases h
  · split at h
    · cases h
    · split at h
      · cases h
      · split at h
        · cases h
        · simp only [Except.ok.injEq] at h
          subst h
          exact ⟨rfl, rfl, rfl, rfl, _, rfl⟩


/-- One operation preserves well-formedness and the totals invariant. -/
theorem step_preserves (db : DB) (op : Op) (hwf : WF db) (ht : totalsOk db) :
    WF (step db op) ∧ totalsOk (step db op) := by
  cases op with
  | upsert tg un =>
    obtain ⟨h1, h2, h3, _⟩ := upsert_frame db tg un
    simp only [step, WF, totalsOk, h1, h2, h3]
    exact ⟨⟨hwf.1, hwf.2⟩, ht⟩
  | createOrder tg sku qty =>
    cases hr : create_order_for_user db tg sku qty with
    | error e =>
      simp only [step]
      rw [hr]
      exact ⟨hwf, ht⟩
    | ok r =>
      obtain ⟨u, p, hu2, hp2, husers, hprods, hord, hitems, hnext, hid, huid, hstat, htot⟩ :=
        create_ok_inv db tg sku qty r.1 r.2 (by rw [hr])
      have hstep : step db (.createOrder tg sku qty) = r.1 := by
        simp only [step]
        rw [hr]
      rw [hstep]
      refine ⟨⟨?_, ?_⟩, ?_⟩
      · intro o ho
        rw [hord] at ho
        rw [hnext]
        rcases List.mem_append.mp ho with h1 | h1
        · exact Nat.lt_succ_of_lt (hwf.1 o h1)
        · rcases List.mem_singleton.mp h1 with rfl
          rw [hid]
          omega
      · intro it hit
        rw [hitems] at hit
        rw [hnext]
        rcases List.mem_append.mp hit with h1 | h1
        · exact Nat.lt_succ_of_lt (hwf.2 it h1)
        · rcases List.mem_singleton.mp h1 with rfl
          show db.next_order_id < db.next_order_id + 1
          omega
      · intro o ho
        rw [hord] at ho
        rcases List.mem_append.mp ho with h1 | h1
        · rw [hitems]
          have hlt := hwf.1 o h1
          refine (ht o h1).trans (aggTotal_append_ne _ _ _ ?_).symm
          show db.next_order_id ≠ o.id
          omega
        · rcases List.mem_singleton.mp h1 with rfl
          exact htot
  | listActive n => exact ⟨hwf, ht⟩
  | listOrders tg n => exact ⟨hwf, ht⟩
  | adminCreateProduct sku name d ps a =>
    cases hr : admin_products_post db sku name d ps a with
    | error e =>
      simp only [step]
      rw [hr]
      exact ⟨hwf, ht⟩
    | ok db2 =>
      obtain ⟨_, ho, hi, hn, _⟩ := admin_ok_shape db sku name d ps a db2 hr
      have hstep : step db (.adminCreateProduct sku name d ps a) = db2 := by
        simp only [step]
        rw [hr]
      rw [hstep]
      simp only [WF, totalsOk, ho, hi, hn]
      exact ⟨⟨hwf.1, hwf.2⟩, ht⟩

/-- Any sequence of operations preserves well-formedness and the totals
invariant. -/
theorem steps_preserve (db : DB) (ops : List Op) (hwf : WF db) (ht : totalsOk db) :
    WF (List.foldl step db ops) ∧ totalsOk (List.foldl step db ops) := by
  induction ops generalizing db with
  | nil => exact ⟨hwf, ht⟩
  | cons op rest ih =>
    obtain ⟨h1, h2⟩ := step_preserves db op hwf ht
    exact ih (step db op) h1 h2

/-- No operation removes or rewrites persisted orders or order lines: after
any operation both tables are the old rows followed by the new ones. -/
theorem step_extends (db : DB) (op : Op) :
    (∃ tail, (step db op).order_items = db.order_items ++ tail) ∧
    (∃ tail, (step db op).orders = db.orders ++ tail) := by
  cases op with
  | upsert tg un =>
    obtain ⟨h1, h2, _, _⟩ := upsert_frame db tg un
    exact ⟨⟨[], by simp only [step]; rw [h2, List.append_nil]⟩,
      ⟨[], by simp only [step]; rw [h1, List.append_nil]⟩⟩
  | createOrder tg sku qty =>
    cases hr : create_order_for_user db tg sku qty with
    | error e =>
      have hstep : step db (.createOrder tg sku qty) = db := by
        simp only [step]
        rw [hr]
      exact ⟨⟨[], by rw [hstep, List.append_nil]⟩, ⟨[], by rw [hstep, List.append_nil]⟩⟩
    | ok r =>
      obtain ⟨u, p, _, _, _, _, hord, hitems, _, _, _, _, _⟩ :=
        create_ok_inv db tg sku qty r.1 r.2 (by rw [hr])
      have hstep : step db (.createOrder tg sku qty) = r.1 := by
        simp only [step]
        rw [hr]
      exact ⟨⟨_, by rw [hstep]; exact hitems⟩, ⟨_, by rw [hstep]; exact hord⟩⟩
  | listActive n =>
    exact ⟨⟨[], (List.append_nil _).symm⟩, ⟨[], (List.append_nil _).symm⟩⟩
  | listOrders tg n =>
    exact ⟨⟨[], (List.append_nil _).symm⟩, ⟨[], (List.append_nil _).symm⟩⟩
  | adminCreateProduct sku name d ps a =>
    cases hr : admin_products_post db sku name d ps a with
    | error e =>
      have hstep : step db (.adminCreateProduct sku name d ps a) = db := by
        simp only [step]
        rw [hr]
      exact ⟨⟨[], by rw [hstep, List.append_nil]⟩, ⟨[], by rw [hstep, List.append_nil]⟩⟩
    | ok db2 =>
      obtain ⟨_, ho, hi, _, _⟩ := admin_ok_shape db sku name d ps a db2 hr
      have hstep : step db (.adminCreateProduct sku name d ps a) = db2 := by
        simp only [step]
        rw [hr]
      exact ⟨⟨[], by rw [hstep, hi, List.append_nil]⟩, ⟨[], by rw [hstep, ho, List.append_nil]⟩⟩

/-- Every run of the faulty order transaction either leaves the committed
store untouched and reports an error, or commits and returns the order. -/
theorem faults_cases (fp : FaultPoint) (db : DB) (tg : Int) (sku : String) (qty : Int) :
    ((create_order_with_faults fp db tg sku qty).1 = db ∧
      ∃ e, (create_order_with_faults fp db tg sku qty).2 = .error e) ∨
    (∃ o, (create_order_with_faults fp db tg sku qty).2 = .ok o) := by
  unfold create_order_with_faults
  cases db.users.find? (fun u => u.tg_id == tg) with
  | none => exact Or.inl ⟨rfl, _, rfl⟩
  | some u =>
    cases db.products.find? (fun p => p.sku == sku && p.is_active) with
    | none => exact Or.inl ⟨rfl, _, rfl⟩
    | some p =>
      dsimp only
      split_ifs <;> first
        | exact Or.inl ⟨rfl, _, rfl⟩
        | exact Or.inr ⟨_, rfl⟩

/-- With no fault injected, the faulty model agrees with
`create_order_for_user`. -/
theorem faults_noFault (db : DB) (tg : Int) (sku : String) (qty : Int) :
    create_order_with_faults .noFault db tg sku qty =
      match create_order_for_user db tg sku qty with
      | .ok r => (r.1, .ok r.2)
      | .error e => (db, .error e) := by
  unfold create_order_with_faults create_order_for_user
  cases db.users.find? (fun u => u.tg_id == tg) with
  | none => rfl
  | some u =>
    cases db.products.find? (fun p => p.sku == sku && p.is_active) with
    | none => rfl
    | some p => rfl


/-- `countP` is unchanged by a map that preserves the predicate pointwise on
the list's members. -/
theorem countP_map_congr {α : Type} (l : List α) (f : α → α) (p : α → Bool)
    (h : ∀ x ∈ l, p (f x) = p x) : (l.map f).countP p = l.countP p := by
  induction l with
  | nil => rfl
  | cons x xs ih =>
    simp only [List.map_cons, List.countP_cons]
    rw [h x (List.mem_cons_self x xs), ih (fun y hy => h y (List.mem_cons_of_mem x hy))]

/-- A list on which `find?` fails has no matching element. -/
theorem find?_eq_none_countP {α : Type} (l : List α) (p : α → Bool) (h : l.find? p = none) :
    l.countP p = 0 := by
  rw [List.countP_eq_zero]
  exact List.find?_eq_none.mp h

/-- `find?` over an append whose left part has no match searches the right
part. -/
theorem find?_append_left_none {α : Type} (l1 l2 : List α) (p : α → Bool)
    (h : l1.find? p = none) : (l1 ++ l2).find? p = l2.find? p := by
  rw [List.find?_append, h]
  rfl

/-- Replacing the found user by a row with the same id and tg_id makes
`find?` return the replacement, provided ids are unique. -/
theorem find?_map_replace (tg : Int) (l : List User)
    (hids : (l.map (fun u => u.id)).Nodup) (user user2 : User)
    (hid : user2.id = user.id) (htg : user2.tg_id = user.tg_id)
    (hfind : l.find? (fun u => u.tg_id == tg) = some user) :
    (l.map (fun u => if u.id == user.id then user2 else u)).find?
      (fun u => u.tg_id == tg) = some user2 := by
  induction l with
  | nil => cases hfind
  | cons x xs ih =>
    simp only [List.map_cons] at hids ⊢
    rw [List.find?_cons] at hfind
    by_cases hx : (x.tg_id == tg) = true
    · rw [hx] at hfind
      have hxu : x = user := by simpa using hfind
      subst hxu
      have hpx2 : (user2.tg_id == tg) = true := by
        rw [htg]
        exact hx
      rw [show (if x.id == x.id then user2 else x) = user2 by simp]
      rw [List.find?_cons, hpx2]
    · have hx2 : (x.tg_id == tg) = false := by simpa using hx
      rw [hx2] at hfind
      have hfind2 : xs.find? (fun u => u.tg_id == tg) = some user := hfind
      have hmem : user ∈ xs := List.mem_of_find?_eq_some hfind2
      have hxid : ¬(x.id == user.id) = true := by
        intro hEq
        have hin : x.id ∈ xs.map (fun u => u.id) := by
          have hxe : x.id = user.id := by simpa using hEq
          rw [hxe]
          exact List.mem_map_of_mem _ hmem
        exact (List.nodup_cons.mp hids).1 hin
      rw [show (if x.id == user.id then user2 else x) = x from if_neg hxid]
      rw [List.find?_cons, hx2]
      exact ih (List.nodup_cons.mp hids).2 hfind2

/-- `upsert_user` on an absent tg_id inserts the fresh row. -/
theorem upsert_insert_eq (db : DB) (tg : Int) (un : Option String)
    (hfind : db.users.find? (fun x => x.tg_id == tg) = none) :
    upsert_user db tg un =
      ({ db with
         users := db.users ++ [{ id := db.next_user_id, tg_id := tg, username := un }],
         next_user_id := db.next_user_id + 1 },
       { id := db.next_user_id, tg_id := tg, username := un }) := by
  unfold upsert_user
  rw [hfind]

/-- `upsert_user` on a present row with a truthy, different username updates
that row's username in place. -/
theorem upsert_update_eq (db : DB) (tg : Int) (un : Option String) (u : User)
    (hfind : db.users.find? (fun x => x.tg_id == tg) = some u)
    (hcond : strTruthy un = true ∧ u.username ≠ un) :
    upsert_user db tg un =
      ({ db with
         users := db.users.map
           (fun x => if x.id == u.id then { u with username := un } else x) },
       { u with username := un }) := by
  unfold upsert_user
  simp only [hfind]
  rw [if_pos hcond]

/-- `upsert_user` is a no-op when the row is present and the username needs
no change. -/
theorem upsert_self_noop (db : DB) (tg : Int) (un : Option String) (u : User)
    (hfind : db.users.find? (fun x => x.tg_id == tg) = some u)
    (huser : strTruthy un = true → u.username = un) :
    upsert_user db tg un = (db, u) := by
  unfold upsert_user
  simp only [hfind]
  rw [if_neg (fun hc => hc.2 (huser hc.1))]


/-- Claim C6: `upsert(external_id, display_name)` is idempotent: when no row
with that external id exists it creates one; calling it twice with identical
input returns the same user id both times, leaves the store of the first
call unchanged (no additional side effects) and keeps at most one row with
that external id; when a row exists, only the username may change and the
current row is returned, ids untouched.  Ids are assumed unique, as the
primary key guarantees. -/
theorem claim6_upsert_idempotent (db : DB) (tg : Int) (un : Option String)
    (hids : (db.users.map (fun u => u.id)).Nodup) :
    ((upsert_user (upsert_user db tg un).1 tg un).2.id = (upsert_user db tg un).2.id) ∧
    ((upsert_user (upsert_user db tg un).1 tg un).1 = (upsert_user db tg un).1) ∧
    (db.users.countP (fun u => u.tg_id == tg) ≤ 1 →
      (upsert_user db tg un).1.users.countP (fun u => u.tg_id == tg) ≤ 1) ∧
    (db.users.find? (fun x => x.tg_id == tg) = none →
      (upsert_user db tg un).1.users =
        db.users ++ [{ id := db.next_user_id, tg_id := tg, username := un }]) ∧
    (∀ u, db.users.find? (fun x => x.tg_id == tg) = some u →
      (upsert_user db tg un).2.id = u.id ∧ (upsert_user db tg un).2.tg_id = u.tg_id) := by
  cases hfind : db.users.find? (fun x => x.tg_id == tg) with
  | none =>
    rw [upsert_insert_eq db tg un hfind]
    have hfind2 :
        (db.users ++ [({ id := db.next_user_id, tg_id := tg, username := un } : User)]).find?
          (fun x => x.tg_id == tg) =
          some ({ id := db.next_user_id, tg_id := tg, username := un } : User) := by
      rw [find?_append_left_none _ _ _ hfind]
      simp
    have hnoop := upsert_self_noop
      ({ db with
         users := db.users ++ [{ id := db.next_user_id, tg_id := tg, username := un }],
         next_user_id := db.next_user_id + 1 })
      tg un ({ id := db.next_user_id, tg_id := tg, username := un } : User) hfind2
      (fun _ => rfl)
    rw [hnoop]
    refine ⟨rfl, rfl, ?_, fun _ => rfl, ?_⟩
    · intro _
      show (db.users ++ [({ id := db.next_user_id, tg_id := tg, username := un } : User)]).countP
        (fun u => u.tg_id == tg) ≤ 1
      rw [List.countP_append, find?_eq_none_countP _ _ hfind]
      simp
    · intro u hu
      exact Option.noConfusion hu
  | some user =>
    by_cases hcond : strTruthy un = true ∧ user.username ≠ un
    · rw [upsert_update_eq db tg un user hfind hcond]
      have hfind2 := find?_map_replace tg db.users hids user
        { user with username := un } rfl rfl hfind
      have hnoop := upsert_self_noop
        ({ db with
           users := db.users.map
             (fun x => if x.id == user.id then { user with username := un } else x) })
        tg un { user with username := un } hfind2 (fun _ => rfl)
      rw [hnoop]
      have hcong : ∀ x ∈ db.users,
          ((if x.id == user.id then { user with username := un } else x).tg_id == tg) =
            (x.tg_id == tg) := by
        intro x hx
        by_cases hxid : (x.id == user.id) = true
        · rw [if_pos hxid]
          have hxeq : x = user := List.inj_on_of_nodup_map hids hx
            (List.mem_of_find?_eq_some hfind) (by simpa using hxid)
          rw [hxeq]
        · rw [if_neg hxid]
      refine ⟨rfl, rfl, ?_, ?_, ?_⟩
      · intro hc
        show (db.users.map
            (fun x => if x.id == user.id then { user with username := un } else x)).countP
            (fun u => u.tg_id == tg) ≤ 1
        rw [countP_map_congr db.users _ _ hcong]
        exact hc
      · intro hnone
        exact Option.noConfusion hnone
      · intro u hu
        have hue : user = u := Option.some.inj hu
        subst hue
        exact ⟨rfl, rfl⟩
    · have hnoop := upsert_self_noop db tg un user hfind
        (fun hA => Classical.byContradiction (fun hB => hcond ⟨hA, hB⟩))
      rw [hnoop]
      have hres : upsert_user ((db, user) : DB × User).1 tg un = (db, user) := hnoop
      rw [hres]
      refine ⟨rfl, rfl, fun hc => hc, ?_, ?_⟩
      · intro hnone
        exact Option.noConfusion hnone
      · intro u hu
        have hue : user = u := Option.some.inj hu
        subst hue
        exact ⟨rfl, rfl⟩

/-- Witness for C6 at a concrete store: registering external id 42 twice
returns user id 1 both times and the second call changes nothing. -/
theorem claim6_witness :
    (upsert_user (upsert_user emptyDB 42 (some "A")).1 42 (some "A")).2.id =
      (upsert_user emptyDB 42 (some "A")).2.id ∧
    (upsert_user (upsert_user emptyDB 42 (some "A")).1 42 (some "A")).1 =
      (upsert_user emptyDB 42 (some "A")).1 := by
  have h := claim6_upsert_idempotent emptyDB 42 (some "A") (by decide)
  exact ⟨h.1, h.2.1⟩


/-- The order returned by buying one unit of SKU-001 in `dbShop`. -/
def orderOne : Order := { id := 1, user_id := 1, status := "new", total_cents := 49900 }

/-- The committed store after buying one unit of SKU-001 in `dbShop`. -/
def dbAfterOne : DB :=
  { dbShop with
    orders := [orderOne],
    order_items := [{ id := 1, order_id := 1, product_id := 1, qty := 1, price_cents := 49900 }],
    next_order_id := 2,
    next_item_id := 2 }

/-- Claim C1: starting from a well-formed store satisfying the totals
invariant, every sequence of in-scope operations preserves the invariant
that each persisted order's total equals the aggregate sum of qty times
unit price over its persisted lines; moreover the total committed by a
successful `create_order_for_user` is the aggregate over the persisted
lines of the committed store itself (re-read, not the in-memory product). -/
theorem claim1_totals_invariant (db : DB) (ops : List Op) (hwf : WF db) (ht : totalsOk db) :
    totalsOk (List.foldl step db ops) ∧
    (∀ tg sku qty db2 o2, create_order_for_user db tg sku qty = .ok (db2, o2) →
      o2 ∈ db2.orders ∧ o2.total_cents = aggTotal db2.order_items o2.id) := by
  refine ⟨(steps_preserve db ops hwf ht).2, ?_⟩
  intro tg sku qty db2 o2 h
  obtain ⟨u, p, _, _, _, _, hord, _, _, _, _, _, htot⟩ := create_ok_inv db tg sku qty db2 o2 h
  constructor
  · rw [hord]
    exact List.mem_append_right _ (List.mem_singleton_self _)
  · exact htot

/-- Witness for C1: the invariant holds after a mixed concrete run of
purchases, a re-registration and a failing purchase. -/
theorem claim1_witness :
    totalsOk (List.foldl step dbShop
      [Op.createOrder 42 "SKU-001" 2, Op.upsert 42 (some "bob"),
       Op.createOrder 42 "SKU-002" 0, Op.createOrder 7 "SKU-001" 1]) :=
  (claim1_totals_invariant dbShop
    [Op.createOrder 42 "SKU-001" 2, Op.upsert 42 (some "bob"),
     Op.createOrder 42 "SKU-002" 0, Op.createOrder 7 "SKU-001" 1]
    (by decide) (by decide)).1

/-- Claim C2: whatever store fault is injected at any point inside the order
transaction, a failing run leaves the committed store exactly as it was
(rollback before the error propagates); with no fault injected the faulty
model coincides with `create_order_for_user`. -/
theorem claim2_rollback (db : DB) (tg : Int) (sku : String) (qty : Int) :
    (∀ fp e, (create_order_with_faults fp db tg sku qty).2 = .error e →
      (create_order_with_faults fp db tg sku qty).1 = db) ∧
    create_order_with_faults .noFault db tg sku qty =
      (match create_order_for_user db tg sku qty with
       | .ok r => (r.1, .ok r.2)
       | .error e => (db, .error e)) := by
  refine ⟨?_, faults_noFault db tg sku qty⟩
  intro fp e h
  rcases faults_cases fp db tg sku qty with ⟨h1, _⟩ | ⟨o, ho⟩
  · exact h1
  · rw [ho] at h
    exact Except.noConfusion h

/-- Witness for C2: a commit-time fault on a valid purchase leaves the
sample store unchanged. -/
theorem claim2_witness :
    (create_order_with_faults .atCommit dbShop 42 "SKU-001" 1).1 = dbShop :=
  (claim2_rollback dbShop 42 "SKU-001" 1).1 .atCommit .storeFault rfl

/-- Claim C3: when the external id resolves to a user and the sku to an
active product, `create_order_for_user` succeeds with exactly one line for
the new order whose quantity is `max 1 qty` at the product's price, and with
total `max 1 qty * price`. -/
theorem claim3_create_order_success (db : DB) (tg : Int) (sku : String) (qty : Int)
    (u : User) (p : Product)
    (hu : db.users.find? (fun x => x.tg_id == tg) = some u)
    (hp : db.products.find? (fun x => x.sku == sku && x.is_active) = some p)
    (hfresh : ∀ it ∈ db.order_items, it.order_id ≠ db.next_order_id) :
    ∃ db2 o2,
      create_order_for_user db tg sku qty = .ok (db2, o2) ∧
      o2.user_id = u.id ∧
      db2.order_items.filter (fun it => it.order_id == o2.id) =
        [{ id := db.next_item_id, order_id := db.next_order_id, product_id := p.id,
           qty := max 1 qty, price_cents := p.price_cents }] ∧
      o2.total_cents = max 1 qty * p.price_cents := by
  obtain ⟨r, hr⟩ : ∃ r, create_order_for_user db tg sku qty = .ok r := by
    unfold create_order_for_user
    rw [hu, hp]
    exact ⟨_, rfl⟩
  obtain ⟨u2, p2, hu2, hp2, husers, hprods, hord, hitems, hnext, hid, huid, hstat, htot⟩ :=
    create_ok_inv db tg sku qty r.1 r.2 (by rw [hr])
  have huu : u = u2 := by
    rw [hu] at hu2
    exact Option.some.inj hu2
  have hpp : p = p2 := by
    rw [hp] at hp2
    exact Option.some.inj hp2
  subst huu
  subst hpp
  rw [normQty_eq_max qty] at hitems
  have hfilter : r.1.order_items.filter (fun it => it.order_id == db.next_order_id) =
      [{ id := db.next_item_id, order_id := db.next_order_id, product_id := p.id,
         qty := max 1 qty, price_cents := p.price_cents }] := by
    rw [hitems]
    exact filter_append_fresh _ _ _ hfresh rfl
  refine ⟨r.1, r.2, by rw [hr], huid, ?_, ?_⟩
  · rw [hid, hfilter]
  · rw [htot]
    unfold aggTotal
    rw [hid, hfilter]
    simp

/-- Witness for C3: quantity 2 at price 49900 totals 99800, and quantity 0
is coerced to one unit. -/
theorem claim3_witness :
    (∃ db2 o2, create_order_for_user dbShop 42 "SKU-001" 2 = .ok (db2, o2) ∧
      o2.total_cents = 99800) ∧
    (∃ db3 o3, create_order_for_user dbShop 42 "SKU-001" 0 = .ok (db3, o3) ∧
      o3.total_cents = 49900) := by
  constructor
  · obtain ⟨db2, o2, h1, _, _, h4⟩ := claim3_create_order_success dbShop 42 "SKU-001" 2
      ⟨1, 42, some "alice"⟩ ⟨1, "SKU-001", "Phone", none, 49900, true⟩
      (by decide) (by decide) (by decide)
    exact ⟨db2, o2, h1, by rw [h4]; decide⟩
  · obtain ⟨db3, o3, h1, _, _, h4⟩ := claim3_create_order_success dbShop 42 "SKU-001" 0
      ⟨1, 42, some "alice"⟩ ⟨1, "SKU-001", "Phone", none, 49900, true⟩
      (by decide) (by decide) (by decide)
    exact ⟨db3, o3, h1, by rw [h4]; decide⟩

/-- Claim C4: no in-scope operation rewrites or removes a persisted order
line or order (both tables only ever grow at the end), and a later change of
a product's price touches neither the lines nor any order's aggregate. -/
theorem claim4_snapshot_immutable (db : DB) (op : Op) (pid : Nat) (c : Int) :
    (∃ tail, (step db op).order_items = db.order_items ++ tail) ∧
    (∃ tail, (step db op).orders = db.orders ++ tail) ∧
    (set_product_price db pid c).order_items = db.order_items ∧
    (set_product_price db pid c).orders = db.orders ∧
    (∀ oid, aggTotal (set_product_price db pid c).order_items oid =
      aggTotal db.order_items oid) := by
  obtain ⟨h1, h2⟩ := step_extends db op
  exact ⟨h1, h2, rfl, rfl, fun _ => rfl⟩

/-- Claim C5: an unknown external id fails with the user-not-found error and
an unknown or inactive sku fails with the product-not-found error; in both
cases the committed store is unchanged. -/
theorem claim5_not_found (db : DB) (tg : Int) (sku : String) (qty : Int) :
    (db.users.find? (fun x => x.tg_id == tg) = none →
      create_order_for_user db tg sku qty = .error .userNotFound ∧
      step db (.createOrder tg sku qty) = db) ∧
    (∀ u, db.users.find? (fun x => x.tg_id == tg) = some u →
      db.products.find? (fun x => x.sku == sku && x.is_active) = none →
      create_order_for_user db tg sku qty = .error .productNotFound ∧
      step db (.createOrder tg sku qty) = db) := by
  constructor
  · intro hu
    have he : create_order_for_user db tg sku qty = .error .userNotFound := by
      unfold create_order_for_user
      rw [hu]
    exact ⟨he, create_error_step _ _ _ _ _ he⟩
  · intro u hu hp
    have he : create_order_for_user db tg sku qty = .error .productNotFound := by
      unfold create_order_for_user
      rw [hu, hp]
    exact ⟨he, create_error_step _ _ _ _ _ he⟩

/-- Witness for C5: external id 7 is unregistered in the sample store and
sku NOPE does not exist; both purchases fail as claimed with the store
untouched. -/
theorem claim5_witness :
    (create_order_for_user dbShop 7 "SKU-001" 1 = .error .userNotFound ∧
      step dbShop (.createOrder 7 "SKU-001" 1) = dbShop) ∧
    (create_order_for_user dbShop 42 "NOPE" 1 = .error .productNotFound ∧
      step dbShop (.createOrder 42 "NOPE" 1) = dbShop) :=
  ⟨(claim5_not_found dbShop 7 "SKU-001" 1).1 (by decide),
   (claim5_not_found dbShop 42 "NOPE" 1).2 ⟨1, 42, some "alice"⟩ (by decide) (by decide)⟩

/-- Claim C10: `create_order_for_user` never modifies the users table or the
products table, on success or failure. -/
theorem claim10_frame (db : DB) (tg : Int) (sku : String) (qty : Int) :
    (step db (.createOrder tg sku qty)).users = db.users ∧
    (step db (.createOrder tg sku qty)).products = db.products ∧
    (∀ db2 o2, create_order_for_user db tg sku qty = .ok (db2, o2) →
      db2.users = db.users ∧ db2.products = db.products) := by
  have hmain : ∀ db2 o2, create_order_for_user db tg sku qty = .ok (db2, o2) →
      db2.users = db.users ∧ db2.products = db.products := by
    intro db2 o2 h
    obtain ⟨u, p, _, _, husers, hprods, _⟩ := create_ok_inv db tg sku qty db2 o2 h
    exact ⟨husers, hprods⟩
  cases hr : create_order_for_user db tg sku qty with
  | error e =>
    have hstep : step db (.createOrder tg sku qty) = db := by
      simp only [step]
      rw [hr]
    rw [hstep]
    exact ⟨rfl, rfl, fun db2 o2 h2 => hmain db2 o2 (hr.trans h2)⟩
  | ok r =>
    have hstep : step db (.createOrder tg sku qty) = r.1 := by
      simp only [step]
      rw [hr]
    obtain ⟨hu, hp⟩ := hmain r.1 r.2 (by rw [hr])
    rw [hstep]
    exact ⟨hu, hp, fun db2 o2 h2 => hmain db2 o2 (hr.trans h2)⟩

/-- Witness for C10: the concrete purchase in the sample store keeps users
and products byte-for-byte identical. -/
theorem claim10_witness :
    (step dbShop (Op.createOrder 42 "SKU-001" 1)).users = dbShop.users ∧
    (step dbShop (Op.createOrder 42 "SKU-001" 1)).products = dbShop.products ∧
    dbAfterOne.users = dbShop.users ∧ dbAfterOne.products = dbShop.products := by
  have h := claim10_frame dbShop 42 "SKU-001" 1
  have h2 := h.2.2 dbAfterOne orderOne rfl
  exact ⟨h.1, h.2.1, h2.1, h2.2⟩


/-- A prefix of a sorted list is sorted. -/
theorem sorted_take {α : Type} (r : α → α → Prop) (l : List α) (n : Nat)
    (h : l.Sorted r) : (l.take n).Sorted r :=
  List.Pairwise.sublist (List.take_sublist n l) h

/-- In a sorted list, every element of the prefix of length n is related to
every member that is outside that prefix. -/
theorem take_top {α : Type} (r : α → α → Prop) (l : List α) (n : Nat) (h : l.Sorted r)
    (b : α) (hb : b ∈ l) (hbn : b ∉ l.take n) : ∀ a ∈ l.take n, r a b := by
  intro a ha
  have hsplit : l.take n ++ l.drop n = l := List.take_append_drop n l
  have hpw : (l.take n ++ l.drop n).Pairwise r := by
    rw [hsplit]
    exact h
  have hbapp : b ∈ l.take n ++ l.drop n := by
    rw [hsplit]
    exact hb
  have hbd : b ∈ l.drop n := by
    rcases List.mem_append.mp hbapp with h1 | h1
    · exact absurd h1 hbn
    · exact h1
  exact (List.pairwise_append.mp hpw).2.2 a ha b hbd

/-- Claim C7: the order-history query returns the empty list for an unknown
external id, is always sorted by order id descending with at most `limit`
elements, and for a known user returns only that user's persisted orders and
prefers the highest order ids (most recent first). -/
theorem claim7_list_orders (db : DB) (tg : Int) (limit : Nat) :
    (db.users.find? (fun x => x.tg_id == tg) = none →
      list_orders_by_tg_id db tg limit = []) ∧
    (list_orders_by_tg_id db tg limit).Sorted orderDesc ∧
    (list_orders_by_tg_id db tg limit).length ≤ limit ∧
    (∀ u, db.users.find? (fun x => x.tg_id == tg) = some u →
      (∀ o ∈ list_orders_by_tg_id db tg limit, o ∈ db.orders ∧ o.user_id = u.id) ∧
      (∀ o ∈ db.orders, o.user_id = u.id → o ∉ list_orders_by_tg_id db tg limit →
        ∀ a ∈ list_orders_by_tg_id db tg limit, o.id ≤ a.id)) := by
  cases hfind : db.users.find? (fun x => x.tg_id == tg) with
  | none =>
    have hres : list_orders_by_tg_id db tg limit = [] := by
      unfold list_orders_by_tg_id
      rw [hfind]
    refine ⟨fun _ => hres, ?_, ?_, ?_⟩
    · rw [hres]
      exact List.sorted_nil
    · rw [hres]
      simp
    · intro u hu
      exact Option.noConfusion hu
  | some user =>
    have hres : list_orders_by_tg_id db tg limit =
        (List.insertionSort orderDesc
          (db.orders.filter (fun o => o.user_id == user.id))).take limit := by
      unfold list_orders_by_tg_id
      rw [hfind]
    have hsorted : (List.insertionSort orderDesc
        (db.orders.filter (fun o => o.user_id == user.id))).Sorted orderDesc :=
      List.sorted_insertionSort orderDesc _
    refine ⟨fun hno => Option.noConfusion hno, ?_, ?_, ?_⟩
    · rw [hres]
      exact sorted_take _ _ _ hsorted
    · rw [hres, List.length_take]
      exact min_le_left _ _
    · intro u hu
      obtain rfl : user = u := Option.some.inj hu
      constructor
      · intro o ho
        rw [hres] at ho
        have h1 := List.take_subset _ _ ho
        have h2 := (List.mem_insertionSort _).mp h1
        have h3 := List.mem_filter.mp h2
        exact ⟨h3.1, by simpa using h3.2⟩
      · intro o ho houid honot a ha
        rw [hres] at honot ha
        have hol : o ∈ List.insertionSort orderDesc
            (db.orders.filter (fun o2 => o2.user_id == user.id)) := by
          rw [List.mem_insertionSort _]
          exact List.mem_filter.mpr ⟨ho, by simpa using houid⟩
        exact take_top orderDesc _ limit hsorted o hol honot a ha

/-- Claim C8: the catalog query returns only active products, sorted by id
ascending, with exactly `min limit count` elements, prefers the lowest ids,
and performs no write. -/
theorem claim8_list_active (db : DB) (limit : Nat) :
    (list_active_products db limit).Sorted productAsc ∧
    (list_active_products db limit).length =
      min limit (db.products.filter (fun p => p.is_active)).length ∧
    (∀ p ∈ list_active_products db limit, p ∈ db.products ∧ p.is_active = true) ∧
    (∀ p ∈ db.products, p.is_active = true → p ∉ list_active_products db limit →
      ∀ a ∈ list_active_products db limit, a.id ≤ p.id) ∧
    step db (.listActive limit) = db := by
  have hsorted := List.sorted_insertionSort productAsc
    (db.products.filter (fun p => p.is_active))
  refine ⟨?_, ?_, ?_, ?_, rfl⟩
  · exact sorted_take _ _ _ hsorted
  · unfold list_active_products
    rw [List.length_take, List.length_insertionSort]
  · intro p hp
    have h1 := List.take_subset _ _ hp
    have h2 := (List.mem_insertionSort _).mp h1
    have h3 := List.mem_filter.mp h2
    exact ⟨h3.1, h3.2⟩
  · intro p hp hact hnot a ha
    have hmem : p ∈ List.insertionSort productAsc
        (db.products.filter (fun x => x.is_active)) := by
      rw [List.mem_insertionSort _]
      exact List.mem_filter.mpr ⟨hp, hact⟩
    exact take_top productAsc _ limit hsorted p hmem hnot a ha

/-- A sample store with two persisted orders for external id 42. -/
def dbTwoOrders : DB :=
  { dbShop with
    orders := [{ id := 1, user_id := 1, status := "new", total_cents := 49900 },
               { id := 2, user_id := 1, status := "new", total_cents := 99800 }],
    order_items := [{ id := 1, order_id := 1, product_id := 1, qty := 1, price_cents := 49900 },
                    { id := 2, order_id := 2, product_id := 1, qty := 2, price_cents := 49900 }],
    next_order_id := 3,
    next_item_id := 3 }

/-- Witness for C7: unknown id 7 gets the empty history; for id 42 the
history is sorted descending, capped, and contains the latest order. -/
theorem claim7_witness :
    list_orders_by_tg_id dbTwoOrders 7 5 = [] ∧
    (list_orders_by_tg_id dbTwoOrders 42 5).Sorted orderDesc ∧
    (list_orders_by_tg_id dbTwoOrders 42 5).length ≤ 5 ∧
    (({ id := 2, user_id := 1, status := "new", total_cents := 99800 } : Order) ∈
        dbTwoOrders.orders ∧
      ({ id := 2, user_id := 1, status := "new", total_cents := 99800 } : Order).user_id = 1) := by
  refine ⟨(claim7_list_orders dbTwoOrders 7 5).1 (by decide),
    (claim7_list_orders dbTwoOrders 42 5).2.1,
    (claim7_list_orders dbTwoOrders 42 5).2.2.1,
    ((claim7_list_orders dbTwoOrders 42 5).2.2.2 ⟨1, 42, some "alice"⟩ (by decide)).1
      ⟨2, 1, "new", 99800⟩ (by decide)⟩

/-- Witness for C8: with two active products and limit one, the result is
sorted and has exactly one element. -/
theorem claim8_witness :
    (list_active_products dbShop 1).Sorted productAsc ∧
    (list_active_products dbShop 1).length = 1 := by
  have h := claim8_list_active dbShop 1
  refine ⟨h.1, ?_⟩
  rw [h.2.1]
  decide


/-- `roundHalfEven` rounds to a nearest integer (error at most half of the
denominator) and resolves exact ties to the even integer. -/
theorem roundHalfEven_nearest (n d : Int) (hd : 0 < d) :
    (-d ≤ 2 * (n - roundHalfEven n d * d) ∧ 2 * (n - roundHalfEven n d * d) ≤ d) ∧
    ((2 * (n - roundHalfEven n d * d) = d ∨ 2 * (n - roundHalfEven n d * d) = -d) →
      roundHalfEven n d % 2 = 0) := by
  have h0 : 0 ≤ n % d := Int.emod_nonneg n (by omega)
  have h1 : n % d < d := Int.emod_lt_of_pos n hd
  have h2 := Int.ediv_add_emod n d
  have he : n - n / d * d = n % d := by linear_combination -h2
  have he2 : n - (n / d + 1) * d = n % d - d := by linear_combination -h2
  unfold roundHalfEven
  dsimp only
  split_ifs with ha hb hc
  · rw [he]
    constructor
    · constructor <;> omega
    · intro hcase
      omega
  · rw [he2]
    constructor
    · constructor <;> omega
    · intro hcase
      omega
  · rw [he]
    constructor
    · constructor <;> omega
    · intro hcase
      exact hc
  · rw [he2]
    constructor
    · constructor <;> omega
    · intro hcase
      omega

/-- The money-parsing step never returns a negative number of minor units. -/
theorem parse_price_minor_nonneg (s : String) (c : Int)
    (h : parse_price_minor s = some c) : 0 ≤ c := by
  unfold parse_price_minor at h
  cases hpc : priceToCents s with
  | none =>
    rw [hpc] at h
    cases h
  | some c0 =>
    rw [hpc] at h
    have h2 : (if c0 < 0 then none else (some c0 : Option Int)) = some c := h
    by_cases hneg : c0 < 0
    · rw [if_pos hneg] at h2
      cases h2
    · rw [if_neg hneg] at h2
      have hcc : c0 = c := Option.some.inj h2
      omega

/-- Counterexample to C9: the admin money parser resolves the tie 0.005 to
0, not to 1 as round-half-up would. -/
theorem claim9_counterexample :
    parse_price_minor "0.005" = some 0 ∧ parse_price_minor "0.005" ≠ some 1 := by
  constructor
  · decide
  · decide

/-- Claim C9 (amended): the money-parsing step converts the decimal string
to minor units by rounding to the nearest integer with ties to the even
integer (round-half-even, the decimal module's default), so 0.005 parses to
0 and 0.015 parses to 2; it rejects inputs that round to a negative number
of minor units and rejects unparsable input. -/
theorem claim9_amended (n d : Int) (hd : 0 < d) :
    (-d ≤ 2 * (n - roundHalfEven n d * d) ∧ 2 * (n - roundHalfEven n d * d) ≤ d) ∧
    ((2 * (n - roundHalfEven n d * d) = d ∨ 2 * (n - roundHalfEven n d * d) = -d) →
      roundHalfEven n d % 2 = 0) ∧
    (∀ s c, parse_price_minor s = some c → 0 ≤ c) ∧
    parse_price_minor "0.005" = some 0 ∧
    parse_price_minor "0.015" = some 2 ∧
    parse_price_minor "499.00" = some 49900 ∧
    parse_price_minor "-1" = none ∧
    parse_price_minor "abc" = none := by
  obtain ⟨hb, ht⟩ := roundHalfEven_nearest n d hd
  exact ⟨hb, ht, parse_price_minor_nonneg, by decide, by decide, by decide, by decide, by decide⟩

/-- Witness for C9 (amended) at the tie 500/1000 = 0.5: the rounding error
is exactly half and the chosen integer 0 is even. -/
theorem claim9_witness :
    (-1000 ≤ 2 * (500 - roundHalfEven 500 1000 * 1000) ∧
      2 * (500 - roundHalfEven 500 1000 * 1000) ≤ 1000) ∧
    roundHalfEven 500 1000 % 2 = 0 := by
  have h := claim9_amended 500 1000 (by decide)
  exact ⟨h.1, h.2.1 (Or.inl (by decide))⟩

end Shop
